import Mathlib

/-!
Verification development for the async task-dispatch gateway in
`src/api/main.py` (FastAPI + Redis).

The two core routines are embedded as pure Lean functions:

* `wait_for_result` (main.py lines 211-226): a polling loop that checks the
  `result:<id>` key every 100 ms until it appears or `timeout` (seconds)
  elapses.
* `stream_completion_response` (main.py lines 228-318): a polling loop that
  drains the `stream:<id>` list and the `result:<id>` key every 50 ms,
  re-emitting each new chunk as a server-sent-event frame, with a hard-coded
  300 s timeout.

Modelling conventions:

* JSON values are the inductive `Json` below.  A raw value stored in the
  broker is an `Option Json`: `some j` means the stored bytes decode to `j`,
  `none` means `json.loads` would raise `JSONDecodeError`.
* The broker is an environment indexed by poll tick: the loop's i-th
  iteration observes `env i`.  One tick of `stream_completion_response` is
  the 50 ms sleep at main.py line 303 (the 1 ms per-chunk pauses at line 259
  are sub-tick and folded into the tick); one tick of `wait_for_result` is
  the 100 ms sleep at line 224.  The while-condition
  `time.time() - start_time < timeout` therefore bounds the number of
  iterations: `i < timeout_ms / tick_ms`.
* Frames are the JSON payloads of the emitted events; the uniform
  `data: ...` server-sent-event wrapping (and logging) is elided.
* Python exceptions that the code can raise while handling a poll are the
  inductive `PyExn`; `pyExnStr` is a fixed rendering standing in for
  Python's `str(e)` (its exact text is irrelevant to every claim, which only
  exercise string-valued worker errors).
-/

mutual
inductive Json where
  | null
  | jbool (b : Bool)
  | num (n : Int)
  | str (s : String)
  | arr (xs : JArr)
  | obj (fs : JFields)
deriving DecidableEq

inductive JArr where
  | nil
  | cons (hd : Json) (tl : JArr)
deriving DecidableEq

inductive JFields where
  | nil
  | cons (k : String) (v : Json) (tl : JFields)
deriving DecidableEq
end

/-- First-match lookup in a decoded JSON object, as Python dict lookup
(JSON decoding keeps keys unique, so first match is the dict entry). -/
def JFields.lookup : JFields → String → Option Json
  | .nil, _ => none
  | .cons k v tl, key => if k = key then some v else tl.lookup key

def JFields.ofList : List (String × Json) → JFields
  | [] => .nil
  | (k, v) :: tl => .cons k v (JFields.ofList tl)

/-- Convenience constructor for JSON object literals. -/
def jobj (l : List (String × Json)) : Json :=
  .obj (JFields.ofList l)

/-- Python truthiness of a decoded JSON value (`if result.get("error"):`
and `if ... response_data.get("stop", False):` test truthiness, not
equality with True). -/
def Json.truthy : Json → Bool
  | .null => false
  | .jbool b => b
  | .num n => n != 0
  | .str s => s != ""
  | .arr a => !(a matches .nil)
  | .obj f => !(f matches .nil)

/-- Exceptions the gateway code can raise while handling a decoded value. -/
inductive PyExn where
  | jsonDecodeError
  | attributeError
  | keyError
deriving DecidableEq

/-- Stand-in for Python `str(e)`; the exact message text is never relied on
by a claim. -/
def pyExnStr : PyExn → String
  | .jsonDecodeError => "Expecting value"
  | .attributeError => "AttributeError"
  | .keyError => "KeyError"

/-- Stand-in for Python `str(v)` of a decoded JSON value.  Claims only
exercise string payloads, rendered exactly; container renderings are
placeholders. -/
def pyStr : Json → String
  | .null => "None"
  | .jbool true => "True"
  | .jbool false => "False"
  | .num n => toString n
  | .str s => s
  | .arr _ => "[...]"
  | .obj _ => "dict"

/-- Python `v.get(key, dflt)`: field lookup with default on a dict, and an
`AttributeError` on any non-dict value. -/
def pyGet (v : Json) (key : String) (dflt : Json) : Except PyExn Json :=
  match v with
  | .obj fs => .ok ((fs.lookup key).getD dflt)
  | _ => .error .attributeError

/-- Total variant of `pyGet` for stating results about values already known
to be dicts (returns the default on a non-dict). -/
def objGetD (v : Json) (key : String) (dflt : Json) : Json :=
  match v with
  | .obj fs => (fs.lookup key).getD dflt
  | _ => dflt

/-- The JSON body `{"error": "Request timeout"}` that both loops produce on
an elapsed deadline (main.py lines 226 and 315). -/
def timeoutErrorJson : Json :=
  jobj [("error", .str "Request timeout")]

/-- The wrapped error frame `{"error": f"Streaming error: {e}"}` emitted by
the relay's exception handler (main.py lines 305-311). -/
def streamErrFrame (e : PyExn) : Json :=
  jobj [("error", .str ("Streaming error: " ++ pyExnStr e))]

/-! ## The result waiter (main.py lines 211-226) -/

/-- Outcome of one `wait_for_result` call.  `ret = none` models an uncaught
exception escaping the function (malformed result JSON at line 220);
`resultDeleted` records whether line 221 deleted the `result:<id>` key;
`endTick` is the 100 ms poll tick at which the function returned. -/
structure WaitResult where
  ret : Option Json
  resultDeleted : Bool
  endTick : Nat
deriving DecidableEq

/-- The polling loop of `wait_for_result`: at tick `i` with `n` permitted
iterations left, read the result key; absent means sleep 100 ms and retry,
present means decode, delete the key and return.  `n = 0` is the elapsed
while-condition at line 215: return `{"error": "Request timeout"}`. -/
def waitLoop (resultAt : Nat → Option (Option Json)) : Nat → Nat → WaitResult
  | i, 0 => ⟨some timeoutErrorJson, false, i⟩
  | i, n + 1 =>
    match resultAt i with
    | none => waitLoop resultAt (i + 1) n
    | some none => ⟨none, false, i⟩
    | some (some r) => ⟨some r, true, i⟩

/-- Milliseconds between two polls of `wait_for_result` (line 224). -/
def waitPollMs : Nat := 100

/-- `wait_for_result(task_id, timeout)` with `timeout` in whole seconds:
the while-condition runs iteration `i` exactly when `100 * i < 1000 *
timeoutS`, i.e. for `10 * timeoutS` iterations. -/
def wait_for_result (resultAt : Nat → Option (Option Json)) (timeoutS : Nat) :
    WaitResult :=
  waitLoop resultAt 0 (10 * timeoutS)

/-! ## The stream relay (main.py lines 228-318) -/

/-- What one poll iteration of the relay observes in the broker:
`stream` is the full `stream:<id>` list (each entry decoded or marked
malformed), `result` is the `result:<id>` key (`none` = absent,
`some none` = present but undecodable, `some (some r)` = decodes to `r`). -/
structure BrokerView where
  stream : List (Option Json)
  result : Option (Option Json)
deriving DecidableEq

/-- Outcome of one relay invocation: the emitted frames in order, whether
lines 299/300 deleted the result key and the stream key, and the 50 ms poll
tick at which the generator finished. -/
structure RelayOut where
  frames : List Json
  resultDeleted : Bool
  streamDeleted : Bool
  endTick : Nat
deriving DecidableEq

/-- Lines 240-263: compare `llen` with the high-water mark `last_chunk_count`,
`lrange` the new suffix, emit each chunk that decodes (a chunk whose JSON is
malformed is logged and skipped by the inner `except json.JSONDecodeError`),
set `chunks_sent` if any decoded, and advance the high-water mark.
Returns (frames, chunks_sent, last_chunk_count). -/
def chunkPhase (s : List (Option Json)) (chunksSent : Bool) (lastCount : Nat) :
    List Json × Bool × Nat :=
  if lastCount < s.length then
    let newChunks := s.drop lastCount
    (newChunks.filterMap id, chunksSent || newChunks.any Option.isSome, s.length)
  else
    ([], chunksSent, lastCount)

/-- Lines 273-296: the frames produced once a decoded result `res` is in
hand, or the exception escaping to the relay's handler.  Mirrors the
source's branch order: worker error first, then the synthetic stop frame
(only if chunks were sent and `data.stop` is truthy), then the whole-payload
frame when no chunk was ever sent, and silence when chunks were sent but
`data.stop` is falsy. -/
def resultFrames (chunksSent : Bool) (res : Json) : Except PyExn (List Json) :=
  match pyGet res "error" .null with
  | .error ex => .error ex
  | .ok e =>
    if e.truthy then
      .ok [jobj [("error", e)]]
    else
      match pyGet res "data" (jobj []) with
      | .error ex => .error ex
      | .ok d =>
        if chunksSent then
          match pyGet d "stop" (.jbool false) with
          | .error ex => .error ex
          | .ok s =>
            if s.truthy then
              match pyGet d "multimodal" (.jbool false),
                    pyGet d "slot_id" (.num 0) with
              | .ok mm, .ok sid =>
                .ok [jobj [("content", .str ""), ("multimodal", mm),
                           ("slot_id", sid), ("stop", .jbool true)]]
              | .error ex, _ => .error ex
              | _, .error ex => .error ex
            else
              .ok []
        else
          .ok [d]

/-- Lines 269-311 once the result key is present: decode it (a decode
failure raises into the handler at 305, which emits one wrapped error frame
and returns without cleanup), then `resultFrames`; on success lines 299-301
delete both keys and return.  Yields (terminal frames, cleanup performed). -/
def handleResult (chunksSent : Bool) (raw : Option Json) : List Json × Bool :=
  match raw with
  | none => ([streamErrFrame .jsonDecodeError], false)
  | some res =>
    match resultFrames chunksSent res with
    | .ok fs => (fs, true)
    | .error ex => ([streamErrFrame ex], false)

/-- One relay iteration after the chunk phase: `cf` are the chunk frames
just emitted, `cs1` the updated `chunks_sent`, `rOpt` the observed result
key and `rest` the rest of the run (only reached when the key is absent:
sleep 50 ms and go round again).  When the key is present the iteration
emits the terminal frames and returns at the current tick `i`. -/
def relayIter (cf : List Json) (cs1 : Bool) (i : Nat) (rOpt : Option (Option Json))
    (rest : RelayOut) : RelayOut :=
  match rOpt with
  | none => ⟨cf ++ rest.frames, rest.resultDeleted, rest.streamDeleted, rest.endTick⟩
  | some raw =>
    ⟨cf ++ (handleResult cs1 raw).1, (handleResult cs1 raw).2,
     (handleResult cs1 raw).2, i⟩

/-- The relay's polling loop.  At tick `i` with `n` permitted iterations
left: drain new chunks, then check the result key (`relayIter`).
`n = 0` is the elapsed while-condition at line 237: emit the single timeout
frame of lines 313-318 and close without deleting anything. -/
def relayLoop (env : Nat → BrokerView) : Nat → Nat → Bool → Nat → RelayOut
  | i, 0, _, _ => ⟨[timeoutErrorJson], false, false, i⟩
  | i, n + 1, chunksSent, lastCount =>
    relayIter (chunkPhase (env i).stream chunksSent lastCount).1
      (chunkPhase (env i).stream chunksSent lastCount).2.1 i ((env i).result)
      (relayLoop env (i + 1) n (chunkPhase (env i).stream chunksSent lastCount).2.1
        (chunkPhase (env i).stream chunksSent lastCount).2.2)

/-- Number of 50 ms poll ticks in the relay's hard-coded 300 s timeout
(line 232): `50 * i < 300000` iff `i < 6000`. -/
def relayTicks : Nat := 6000

/-- `stream_completion_response(task_id)` as a function of the per-tick
broker observations. -/
def stream_completion_response (env : Nat → BrokerView) : RelayOut :=
  relayLoop env 0 relayTicks false 0

/-! ## Non-streaming endpoint error paths (main.py lines 176-209, 320-362) -/

/-- An HTTP error response surfaced to the caller. -/
structure HttpError where
  status : Nat
  detail : String
deriving DecidableEq

/-- The `completion` endpoint's handling of a decoded wait result `r`
(lines 355-358), inside the enclosing `try` whose `except Exception`
(lines 360-362) re-raises every exception - including the inner
`HTTPException(500, detail=result["error"])` - as
`HTTPException(500, detail=str(e))`, where Starlette's
`HTTPException.__str__` is `f"{status_code}: {detail}"`. -/
def completionNonStreaming (r : Json) : Except HttpError Json :=
  match pyGet r "error" .null with
  | .error ex => .error ⟨500, pyExnStr ex⟩
  | .ok e =>
    if e.truthy then
      .error ⟨500, "500: " ++ pyStr e⟩
    else
      match r with
      | .obj fs =>
        match fs.lookup "data" with
        | some d => .ok d
        | none => .error ⟨500, pyExnStr .keyError⟩
      | _ => .error ⟨500, pyExnStr .attributeError⟩

/-- The `tokenize` endpoint's handling of a decoded wait result `r`
(lines 199-205), whose `except Exception` handler (lines 207-209) prefixes
`"Error processing tokenize request: "` before `str(e)`. -/
def tokenizeTaskResponse (r : Json) : Except HttpError Json :=
  match pyGet r "error" .null with
  | .error ex => .error ⟨500, "Error processing tokenize request: " ++ pyExnStr ex⟩
  | .ok e =>
    if e.truthy then
      .error ⟨500, "Error processing tokenize request: 500: " ++ pyStr e⟩
    else
      match pyGet r "data" (jobj []) with
      | .ok d => .ok d
      | .error ex =>
        .error ⟨500, "Error processing tokenize request: " ++ pyExnStr ex⟩

/-! ## Concrete scenarios (from the spec's test scenarios) -/

/-- A broker that never holds anything for this job. -/
def emptyEnv : Nat → BrokerView := fun _ => ⟨[], none⟩

/-- A result key that is never written. -/
def neverWritten : Nat → Option (Option Json) := fun _ => none

/-- A decodable result value present from the very first poll. -/
def waitResVal : Json := jobj [("data", jobj [("text", .str "42")])]

def instantResult : Nat → Option (Option Json) := fun _ => some (some waitResVal)

/-- The chunks and result of the spec's `abc123` scenario. -/
def chunkHel : Json := jobj [("content", .str "Hel"), ("stop", .jbool false)]

def chunkLo : Json := jobj [("content", .str "lo"), ("stop", .jbool false)]

def resSlot2 : Json := jobj [("data", jobj [("stop", .jbool true), ("slot_id", .num 2)])]

def scenarioEnv : Nat → BrokerView :=
  fun _ => ⟨[some chunkHel, some chunkLo], some (some resSlot2)⟩

/-- One chunk sent, then a result whose data has no truthy `stop`. -/
def resNoStop : Json := jobj [("data", jobj [])]

def silentStopEnv : Nat → BrokerView :=
  fun _ => ⟨[some chunkLo], some (some resNoStop)⟩

/-- No chunks, then a plain data result (the spec's `xyz` scenario). -/
def wholePayloadEnv : Nat → BrokerView := fun _ => ⟨[], some (some waitResVal)⟩

/-- The result key present but holding undecodable bytes. -/
def malformedResultEnv : Nat → BrokerView := fun _ => ⟨[], some none⟩

/-- A malformed chunk sits at index 0 of the stream, followed by a good
chunk; the result is present with a truthy stop. -/
def badChunkEnv : Nat → BrokerView :=
  fun _ => ⟨[none, some chunkLo], some (some (jobj [("data", jobj [("stop", .jbool true)])]))⟩

/-- A worker-reported error result. -/
def workerErrorResult : Json := jobj [("error", .str "boom")]

/-! ## Helper lemmas -/

theorem prefixSelf {α : Type} (l : List α) : l <+: l := ⟨[], List.append_nil _⟩

theorem take_drop_append_drop {α : Type} (L : List α) (a b : Nat) (h : a ≤ b) :
    (L.take b).drop a ++ L.drop b = L.drop a := by
  induction L generalizing a b with
  | nil => simp
  | cons x xs ih =>
    cases b with
    | zero =>
      have ha : a = 0 := by omega
      subst ha; simp
    | succ b =>
      cases a with
      | zero => simp
      | succ a =>
        simpa using ih a b (by omega)

theorem fm_drop (C : List Json) (a : Nat) :
    ((C.map some).drop a).filterMap id = C.drop a := by
  rw [← List.map_drop]
  simp only [List.filterMap_map]
  simp

theorem any_isSome_drop_map_some (X : List Json) (a : Nat) (h : a < X.length) :
    ((X.map some).drop a).any Option.isSome = true := by
  rw [← List.map_drop]
  cases hX : X.drop a with
  | nil =>
    exfalso
    have := congrArg List.length hX
    simp at this
    omega
  | cons y ys => simp

theorem resultFrames_ok_length (cs : Bool) (res : Json) (fs : List Json)
    (h : resultFrames cs res = .ok fs) : fs.length ≤ 1 := by
  unfold resultFrames at h
  repeat' split at h
  all_goals (try (injection h with h2; subst h2; simp))
  all_goals simp_all

theorem handleResult_length (cs : Bool) (raw : Option Json) :
    (handleResult cs raw).1.length ≤ 1 := by
  cases raw with
  | none => simp [handleResult]
  | some res =>
    cases h : resultFrames cs res with
    | ok fs =>
      have hl := resultFrames_ok_length cs res fs h
      simpa [handleResult, h] using hl
    | error ex => simp [handleResult, h]

theorem chunkPhase_take (C : List Json) (cs : Bool) (last L : Nat)
    (hL : L ≤ C.length) :
    chunkPhase ((C.map some).take L) cs last =
      ((C.take L).drop last, cs || decide (last < L), max last L) := by
  have hlen : ((C.map some).take L).length = L := by
    simp [List.length_take]
    omega
  by_cases hc : last < L
  · have hpos : last < ((C.map some).take L).length := by rw [hlen]; exact hc
    have hfm : (((C.map some).take L).drop last).filterMap id = (C.take L).drop last := by
      rw [← List.map_take]
      exact fm_drop (C.take L) last
    have htk : (C.take L).length = L := by
      simp [List.length_take]
      omega
    have hany : (((C.map some).take L).drop last).any Option.isSome = true := by
      rw [← List.map_take]
      apply any_isSome_drop_map_some
      rw [htk]
      exact hc
    have hd : decide (last < L) = true := by simpa using hc
    simp only [chunkPhase, if_pos hpos]
    rw [hfm, hany, hlen, hd, Nat.max_eq_right (Nat.le_of_lt hc)]
  · have hneg : ¬ last < ((C.map some).take L).length := by rw [hlen]; omega
    have hnil : (C.take L).drop last = [] := by
      apply List.drop_eq_nil_of_le
      simp [List.length_take]
      omega
    have hd : decide (last < L) = false := by
      simp
      omega
    simp only [chunkPhase, if_neg hneg]
    rw [hnil, hd, Nat.max_eq_left (by omega : L ≤ last)]
    simp

theorem drop_chunk_split {α : Type} (C : List α) (last L : Nat) :
    (C.take L).drop last ++ C.drop (max last L) = C.drop last := by
  by_cases h : last ≤ L
  · rw [Nat.max_eq_right h]
    exact take_drop_append_drop C last L h
  · have hmax : max last L = last := by omega
    rw [hmax]
    have hnil : (C.take L).drop last = [] := by
      apply List.drop_eq_nil_of_le
      simp [List.length_take]
      omega
    simp [hnil]

theorem decide_max_lt (last L n : Nat) (hL : L ≤ n) :
    (decide (last < L) || decide (max last L < n)) = decide (last < n) := by
  by_cases h1 : last < L <;> by_cases h2 : max last L < n <;>
    simp [h1, h2] <;> omega

theorem relayIter_none (cf : List Json) (cs1 : Bool) (i : Nat) (rest : RelayOut) :
    relayIter cf cs1 i none rest =
      ⟨cf ++ rest.frames, rest.resultDeleted, rest.streamDeleted, rest.endTick⟩ := rfl

theorem relayIter_some (cf : List Json) (cs1 : Bool) (i : Nat) (raw : Option Json)
    (rest : RelayOut) :
    relayIter cf cs1 i (some raw) rest =
      ⟨cf ++ (handleResult cs1 raw).1, (handleResult cs1 raw).2,
       (handleResult cs1 raw).2, i⟩ := rfl

/-- Core run lemma: if the worker appends only chunks that form prefixes of
a final all-decodable list `C.map some`, keeps the result key absent for
the first `m` ticks, and at tick `m` the stream reads `C.map some` and the
result key holds `raw`, then the relay (with at least `m + 1` iterations of
budget left) emits the not-yet-relayed chunks of `C` in order followed by
the terminal frames of `handleResult`, performs that branch's cleanup, and
returns at tick `m`. -/
theorem relay_result_run (env : Nat → BrokerView) (C : List Json) (raw : Option Json)
    (mono : ∀ a b : Nat, a ≤ b → (env a).stream <+: (env b).stream) :
    ∀ m i n cs last, m < n →
      (∀ j, j < m → (env (i + j)).result = none) →
      (env (i + m)).stream = C.map some →
      (env (i + m)).result = some raw →
      last ≤ C.length →
      relayLoop env i n cs last =
        ⟨C.drop last ++ (handleResult (cs || decide (last < C.length)) raw).1,
         (handleResult (cs || decide (last < C.length)) raw).2,
         (handleResult (cs || decide (last < C.length)) raw).2,
         i + m⟩ := by
  intro m
  induction m with
  | zero =>
    intro i n cs last hn hbefore hstream hres hlast
    cases n with
    | zero => omega
    | succ n =>
      simp only [Nat.add_zero] at hstream hres
      have hfull : (env i).stream = (C.map some).take C.length := by
        rw [hstream, ← List.length_map C some, List.take_length]
      have hp := chunkPhase_take C cs last C.length (Nat.le_refl _)
      have hp1 : (chunkPhase ((C.map some).take C.length) cs last).1 =
          (C.take C.length).drop last := by rw [hp]
      have hp21 : (chunkPhase ((C.map some).take C.length) cs last).2.1 =
          (cs || decide (last < C.length)) := by rw [hp]
      simp only [relayLoop]
      rw [hfull, hp1, hp21, hres, relayIter_some]
      rw [List.take_length]
      simp
  | succ m ih =>
    intro i n cs last hn hbefore hstream hres hlast
    cases n with
    | zero => omega
    | succ n =>
      have hres0 : (env i).result = none := by
        have h0 := hbefore 0 (by omega)
        simpa using h0
      have hpre : (env i).stream <+: C.map some := by
        have h1 := mono i (i + (m + 1)) (Nat.le_add_right _ _)
        rwa [hstream] at h1
      obtain ⟨u, hu⟩ := hpre
      have hsl : (env i).stream.length ≤ C.length := by
        have hlen := congrArg List.length hu
        simp at hlen
        omega
      have hstake : (env i).stream = (C.map some).take ((env i).stream.length) := by
        conv_lhs => rw [← List.take_left (env i).stream u, hu]
      have hp := chunkPhase_take C cs last ((env i).stream.length) hsl
      have hp1 : (chunkPhase ((C.map some).take ((env i).stream.length)) cs last).1 =
          (C.take ((env i).stream.length)).drop last := by rw [hp]
      have hp21 : (chunkPhase ((C.map some).take ((env i).stream.length)) cs last).2.1 =
          (cs || decide (last < (env i).stream.length)) := by rw [hp]
      have hp22 : (chunkPhase ((C.map some).take ((env i).stream.length)) cs last).2.2 =
          max last ((env i).stream.length) := by rw [hp]
      have hrec := ih (i + 1) n (cs || decide (last < (env i).stream.length))
        (max last ((env i).stream.length)) (by omega)
        (by
          intro j hj
          have hb := hbefore (j + 1) (by omega)
          rwa [show i + (j + 1) = i + 1 + j by omega] at hb)
        (by rw [show i + 1 + m = i + (m + 1) by omega]; exact hstream)
        (by rw [show i + 1 + m = i + (m + 1) by omega]; exact hres)
        (by omega)
      have hcs : ((cs || decide (last < (env i).stream.length)) ||
          decide (max last ((env i).stream.length) < C.length)) =
          (cs || decide (last < C.length)) := by
        rw [Bool.or_assoc, decide_max_lt last ((env i).stream.length) C.length hsl]
      simp only [relayLoop]
      rw [hstake, hp1, hp21, hp22, hres0, relayIter_none, hrec]
      dsimp only
      rw [hcs, ← List.append_assoc, drop_chunk_split]
      have ht : i + 1 + m = i + (m + 1) := by omega
      rw [ht]

theorem chunkPhase_pos (s : List (Option Json)) (cs : Bool) (last : Nat)
    (h : last < s.length) :
    chunkPhase s cs last =
      ((s.drop last).filterMap id, cs || (s.drop last).any Option.isSome, s.length) := by
  simp [chunkPhase, if_pos h]

theorem chunkPhase_neg (s : List (Option Json)) (cs : Bool) (last : Nat)
    (h : ¬ last < s.length) :
    chunkPhase s cs last = ([], cs, last) := by
  simp [chunkPhase, if_neg h]

/-- Frame-shape invariant: over any monotone (append-only) worker
behaviour, the relay's output is the in-order decode of a contiguous index
range of the chunk list followed by at most one terminal frame. -/
theorem relay_frames_shape (env : Nat → BrokerView)
    (mono : ∀ a b : Nat, a ≤ b → (env a).stream <+: (env b).stream) :
    ∀ n i cs last, last ≤ (env i).stream.length →
    ∃ k t, last ≤ k ∧ k ≤ (env (i + n)).stream.length ∧ t.length ≤ 1 ∧
      (relayLoop env i n cs last).frames =
        (((env (i + n)).stream.take k).drop last).filterMap id ++ t := by
  intro n
  induction n with
  | zero =>
    intro i cs last hlast
    refine ⟨last, [timeoutErrorJson], Nat.le_refl _, by simpa using hlast, by simp, ?_⟩
    have hnil : ((env (i + 0)).stream.take last).drop last = [] := by
      apply List.drop_eq_nil_of_le
      simp [List.length_take]
    rw [hnil]
    simp [relayLoop]
  | succ n ih =>
    intro i cs last hlast
    have hidx : i + (n + 1) = i + 1 + n := by omega
    have hpre1 : (env i).stream <+: (env (i + 1)).stream := mono i (i + 1) (by omega)
    obtain ⟨u1, hu1⟩ := hpre1
    have hlen1 : (env i).stream.length ≤ (env (i + 1)).stream.length := by
      have := congrArg List.length hu1
      simp at this
      omega
    have hpreF : (env i).stream <+: (env (i + 1 + n)).stream :=
      mono i (i + 1 + n) (by omega)
    obtain ⟨uF, huF⟩ := hpreF
    have hlenF : (env i).stream.length ≤ (env (i + 1 + n)).stream.length := by
      have := congrArg List.length huF
      simp at this
      omega
    have hsF : (env i).stream =
        (env (i + 1 + n)).stream.take (env i).stream.length := by
      conv_lhs => rw [← List.take_left (env i).stream uF, huF]
    cases hres : (env i).result with
    | none =>
      by_cases hc : last < (env i).stream.length
      · obtain ⟨k, t, hk1, hk2, ht, hframes⟩ :=
          ih (i + 1) (cs || ((env i).stream.drop last).any Option.isSome)
            ((env i).stream.length) hlen1
        refine ⟨k, t, by omega, ?_, ht, ?_⟩
        · rw [hidx]
          exact hk2
        · simp only [relayLoop]
          rw [chunkPhase_pos _ _ _ hc, hres, relayIter_none]
          dsimp only
          rw [hframes, hidx]
          have htt : ((env (i + 1 + n)).stream.take k).take (env i).stream.length =
              (env (i + 1 + n)).stream.take (env i).stream.length := by
            simp [List.take_take, Nat.min_eq_left hk1]
          have hsplit :
              ((env (i + 1 + n)).stream.take (env i).stream.length).drop last ++
                ((env (i + 1 + n)).stream.take k).drop (env i).stream.length =
              ((env (i + 1 + n)).stream.take k).drop last := by
            rw [← htt]
            exact take_drop_append_drop _ last ((env i).stream.length) (by omega)
          rw [← hsplit, List.filterMap_append, List.append_assoc]
          rw [← hsF]
      · obtain ⟨k, t, hk1, hk2, ht, hframes⟩ :=
          ih (i + 1) cs last (by omega)
        refine ⟨k, t, hk1, ?_, ht, ?_⟩
        · rw [hidx]
          exact hk2
        · simp only [relayLoop]
          rw [chunkPhase_neg _ _ _ hc, hres, relayIter_none]
          dsimp only
          rw [hframes, hidx]
          simp
    | some raw =>
      by_cases hc : last < (env i).stream.length
      · refine ⟨(env i).stream.length,
          (handleResult (cs || ((env i).stream.drop last).any Option.isSome) raw).1,
          by omega, ?_, handleResult_length _ _, ?_⟩
        · rw [hidx]
          exact hlenF
        · simp only [relayLoop]
          rw [chunkPhase_pos _ _ _ hc, hres, relayIter_some]
          dsimp only
          rw [hidx, ← hsF]
      · refine ⟨last, (handleResult cs raw).1, Nat.le_refl _, ?_,
          handleResult_length _ _, ?_⟩
        · rw [hidx]
          omega
        · simp only [relayLoop]
          rw [chunkPhase_neg _ _ _ hc, hres, relayIter_some]
          dsimp only
          have hnil : (((env (i + 1 + n)).stream.take last).drop last) = [] := by
            apply List.drop_eq_nil_of_le
            simp [List.length_take]
          rw [hidx, hnil]
          simp

/-- If the result key is absent for the first `d` polls and holds raw value
`r` at poll `d` (with budget left), the wait loop returns at tick `d`:
a decodable value is returned with the key deleted, an undecodable one
raises (`ret = none`) with the key left in place. -/
theorem waitLoop_reaches (resultAt : Nat → Option (Option Json)) (r : Option Json) :
    ∀ d i n, d < n → (∀ j, j < d → resultAt (i + j) = none) →
      resultAt (i + d) = some r →
      waitLoop resultAt i n = ⟨r, r.isSome, i + d⟩ := by
  intro d
  induction d with
  | zero =>
    intro i n hn hb hat
    cases n with
    | zero => omega
    | succ n =>
      simp only [Nat.add_zero] at hat
      simp only [waitLoop]
      rw [hat]
      cases r <;> simp
  | succ d ih =>
    intro i n hn hb hat
    cases n with
    | zero => omega
    | succ n =>
      have h0 : resultAt i = none := by simpa using hb 0 (by omega)
      have hrec := ih (i + 1) n (by omega)
        (fun j hj => by
          have hb1 := hb (j + 1) (by omega)
          rwa [show i + (j + 1) = i + 1 + j by omega] at hb1)
        (by rwa [show i + 1 + d = i + (d + 1) by omega])
      simp only [waitLoop]
      rw [h0]
      dsimp only
      rw [hrec]
      congr 1
      omega

/-- If the result key is never written, the wait loop consumes its whole
iteration budget and returns the timeout error without deleting anything. -/
theorem waitLoop_absent (resultAt : Nat → Option (Option Json)) :
    ∀ n i, (∀ j, resultAt j = none) →
      waitLoop resultAt i n = ⟨some timeoutErrorJson, false, i + n⟩ := by
  intro n
  induction n with
  | zero =>
    intro i h
    simp [waitLoop]
  | succ n ih =>
    intro i h
    simp only [waitLoop]
    rw [h i]
    dsimp only
    rw [ih (i + 1) h]
    congr 1
    omega

/-- If the broker stays empty (no chunk, no result) for `n` ticks, the
relay loop consumes its whole budget and emits only the timeout frame,
deleting nothing. -/
theorem relayLoop_idle (env : Nat → BrokerView) :
    ∀ n i cs last, (∀ j, j < n → env (i + j) = ⟨[], none⟩) →
      relayLoop env i n cs last = ⟨[timeoutErrorJson], false, false, i + n⟩ := by
  intro n
  induction n with
  | zero =>
    intro i cs last h
    simp [relayLoop]
  | succ n ih =>
    intro i cs last h
    have h0 : env i = ⟨[], none⟩ := by simpa using h 0 (by omega)
    have hs : (env i).stream = [] := by rw [h0]
    have hr : (env i).result = none := by rw [h0]
    have hcp : chunkPhase (env i).stream cs last = ([], cs, last) := by
      rw [hs]
      apply chunkPhase_neg
      simp
    simp only [relayLoop]
    rw [hcp, hr, relayIter_none]
    dsimp only
    rw [ih (i + 1) cs last (fun j hj => by
      have hj1 := h (j + 1) (by omega)
      rwa [show i + (j + 1) = i + 1 + j by omega] at hj1)]
    simp
    omega

theorem pyGet_ok_obj (v : Json) (k : String) (dflt x : Json)
    (h : pyGet v k dflt = .ok x) : ∃ fs, v = Json.obj fs := by
  cases v <;> first | exact ⟨_, rfl⟩ | simp [pyGet] at h

/-- Lines 281-291: chunks were sent and the result's data has a truthy
`stop` - the synthetic final frame. -/
theorem resultFrames_stop (res d e s : Json)
    (he : pyGet res "error" .null = .ok e) (het : e.truthy = false)
    (hd : pyGet res "data" (jobj []) = .ok d)
    (hs : pyGet d "stop" (.jbool false) = .ok s) (hst : s.truthy = true) :
    resultFrames true res = .ok [jobj [("content", .str ""),
      ("multimodal", objGetD d "multimodal" (.jbool false)),
      ("slot_id", objGetD d "slot_id" (.num 0)), ("stop", .jbool true)]] := by
  obtain ⟨dfs, hdeq⟩ := pyGet_ok_obj d "stop" _ s hs
  subst hdeq
  have hmm : pyGet (Json.obj dfs) "multimodal" (.jbool false) =
      .ok ((dfs.lookup "multimodal").getD (.jbool false)) := rfl
  have hsid : pyGet (Json.obj dfs) "slot_id" (.num 0) =
      .ok ((dfs.lookup "slot_id").getD (.num 0)) := rfl
  simp only [resultFrames, he, hd, hs, hmm, hsid, het, hst, objGetD]
  simp

/-- The unhandled branch: chunks were sent but the data's `stop` is falsy -
no terminal frame at all. -/
theorem resultFrames_silent (res d e s : Json)
    (he : pyGet res "error" .null = .ok e) (het : e.truthy = false)
    (hd : pyGet res "data" (jobj []) = .ok d)
    (hs : pyGet d "stop" (.jbool false) = .ok s) (hst : s.truthy = false) :
    resultFrames true res = .ok [] := by
  simp only [resultFrames, he, hd, hs, het, hst]
  simp

/-- Lines 292-296: no chunk was ever sent - the whole data payload as one
frame. -/
theorem resultFrames_whole (res d e : Json)
    (he : pyGet res "error" .null = .ok e) (het : e.truthy = false)
    (hd : pyGet res "data" (jobj []) = .ok d) :
    resultFrames false res = .ok [d] := by
  simp only [resultFrames, he, hd, het]
  simp

/-! ## Claim theorems -/

/-- Claim C3: for every job whose result key is written with well-formed
JSON at a poll tick `iw` before the timeout elapses (absent at the ticks
before), `wait_for_result` returns that decoded Result - once, as the
call's single return value, at tick `iw` - and the result key has been
deleted afterwards (`resultDeleted = true`, modelling the delete at
main.py line 221 executed before returning). -/
theorem wait_returns_result_and_deletes_key
    (resultAt : Nat → Option (Option Json)) (timeoutS iw : Nat) (r : Json)
    (hw : iw < 10 * timeoutS)
    (hbefore : ∀ j, j < iw → resultAt j = none)
    (hat : resultAt iw = some (some r)) :
    wait_for_result resultAt timeoutS = ⟨some r, true, iw⟩ := by
  unfold wait_for_result
  have h := waitLoop_reaches resultAt (some r) iw 0 (10 * timeoutS) hw
    (fun j hj => by simpa using hbefore j hj) (by simpa using hat)
  simpa using h

theorem wait_returns_result_and_deletes_key_witness :
    wait_for_result instantResult 30 = ⟨some waitResVal, true, 0⟩ :=
  wait_returns_result_and_deletes_key instantResult 30 0 waitResVal
    (by decide) (fun j hj => absurd hj (Nat.not_lt_zero j)) rfl

/-- Claim C4: for every job whose result key is never written,
`wait_for_result` returns the `RequestTimeout` error value, without
deleting anything, at poll tick `10 * timeoutS` - i.e. after exactly
`waitPollMs * (10 * timeoutS) = 1000 * timeoutS` milliseconds in the tick
model: never earlier than the timeout and within one 100 ms poll interval
after it. -/
theorem wait_timeout_error_timing
    (resultAt : Nat → Option (Option Json)) (timeoutS : Nat)
    (habsent : ∀ j, resultAt j = none) :
    wait_for_result resultAt timeoutS =
      ⟨some timeoutErrorJson, false, 10 * timeoutS⟩ ∧
    waitPollMs * (10 * timeoutS) = 1000 * timeoutS := by
  constructor
  · unfold wait_for_result
    simpa using waitLoop_absent resultAt (10 * timeoutS) 0 habsent
  · unfold waitPollMs
    ring

theorem wait_timeout_error_timing_witness :
    wait_for_result neverWritten 1 = ⟨some timeoutErrorJson, false, 10 * 1⟩ ∧
    waitPollMs * (10 * 1) = 1000 * 1 :=
  wait_timeout_error_timing neverWritten 1 (fun _ => rfl)

/-- Claim C10: for a job for which nothing (no chunk, no result) is ever
written within the relay's timeout, the relay emits exactly one
timeout-error frame, closes at tick `relayTicks` - i.e. after
`50 * relayTicks = 300000` ms, exactly the configured 300 s timeout in the
tick model - and deletes no broker keys. -/
theorem relay_timeout_frame_no_cleanup (env : Nat → BrokerView)
    (hidle : ∀ j, j < relayTicks → env j = ⟨[], none⟩) :
    stream_completion_response env =
      ⟨[timeoutErrorJson], false, false, relayTicks⟩ ∧
    50 * relayTicks = 300000 := by
  constructor
  · unfold stream_completion_response
    have h := relayLoop_idle env relayTicks 0 false 0
      (fun j hj => by simpa using hidle j hj)
    simpa using h
  · decide

theorem relay_timeout_frame_no_cleanup_witness :
    stream_completion_response emptyEnv =
      ⟨[timeoutErrorJson], false, false, relayTicks⟩ ∧
    50 * relayTicks = 300000 :=
  relay_timeout_frame_no_cleanup emptyEnv (fun _ _ => rfl)

/-- Claim C2: for every relay invocation over an append-only (monotone)
worker behaviour, the output frame list is the in-order decode of a prefix
of the final chunk list followed by at most one terminal frame.  In
particular each appended chunk is emitted at most once (indices below `k`
exactly once, in append order), and any terminal frame - synthetic stop,
worker error, timeout error, or whole payload - is the last frame. -/
theorem relay_frame_order_single_terminal (env : Nat → BrokerView)
    (mono : ∀ a b : Nat, a ≤ b → (env a).stream <+: (env b).stream) :
    ∃ k t, k ≤ (env relayTicks).stream.length ∧ t.length ≤ 1 ∧
      (stream_completion_response env).frames =
        ((env relayTicks).stream.take k).filterMap id ++ t := by
  obtain ⟨k, t, _, hk2, ht, hframes⟩ :=
    relay_frames_shape env mono relayTicks 0 false 0 (by omega)
  refine ⟨k, t, by simpa using hk2, ht, ?_⟩
  unfold stream_completion_response
  simpa using hframes

theorem relay_frame_order_single_terminal_witness :
    ∃ k t, k ≤ (emptyEnv relayTicks).stream.length ∧ t.length ≤ 1 ∧
      (stream_completion_response emptyEnv).frames =
        ((emptyEnv relayTicks).stream.take k).filterMap id ++ t :=
  relay_frame_order_single_terminal emptyEnv (fun _ _ _ => prefixSelf _)

/-- Claim C1: for a job on which the worker appends `N = C.length >= 1`
well-formed chunks (the stream reads `C.map some` when the result appears)
and then writes a Result with no error and a truthy `stop` in its data,
the relay emits exactly `N + 1` frames: the `N` chunks in append order
followed by one synthetic final frame with empty content and `stop = true`,
and then terminates (at tick `m`, after deleting both keys). -/
theorem relay_emits_chunks_then_synthetic_stop
    (env : Nat → BrokerView) (C : List Json) (res d e s : Json) (m : Nat)
    (mono : ∀ a b : Nat, a ≤ b → (env a).stream <+: (env b).stream)
    (hm : m < relayTicks)
    (hbefore : ∀ j, j < m → (env j).result = none)
    (hstream : (env m).stream = C.map some)
    (hres : (env m).result = some (some res))
    (hN : 1 ≤ C.length)
    (he : pyGet res "error" .null = .ok e) (het : e.truthy = false)
    (hd : pyGet res "data" (jobj []) = .ok d)
    (hs : pyGet d "stop" (.jbool false) = .ok s) (hst : s.truthy = true) :
    ∃ mm sid, stream_completion_response env =
      ⟨C ++ [jobj [("content", .str ""), ("multimodal", mm),
        ("slot_id", sid), ("stop", .jbool true)]], true, true, m⟩ := by
  refine ⟨objGetD d "multimodal" (.jbool false), objGetD d "slot_id" (.num 0), ?_⟩
  unfold stream_completion_response
  have hrun := relay_result_run env C (some res) mono m 0 relayTicks false 0 hm
    (fun j hj => by simpa using hbefore j hj)
    (by simpa using hstream) (by simpa using hres) (by omega)
  rw [hrun]
  have hcs : (false || decide (0 < C.length)) = true := by
    simp
    omega
  rw [hcs]
  have hhandle : handleResult true (some res) =
      ([jobj [("content", .str ""),
        ("multimodal", objGetD d "multimodal" (.jbool false)),
        ("slot_id", objGetD d "slot_id" (.num 0)), ("stop", .jbool true)]], true) := by
    simp only [handleResult, resultFrames_stop res d e s he het hd hs hst]
  rw [hhandle]
  simp

theorem relay_emits_chunks_then_synthetic_stop_witness :
    ∃ mm sid, stream_completion_response scenarioEnv =
      ⟨[chunkHel, chunkLo] ++ [jobj [("content", .str ""), ("multimodal", mm),
        ("slot_id", sid), ("stop", .jbool true)]], true, true, 0⟩ :=
  relay_emits_chunks_then_synthetic_stop scenarioEnv [chunkHel, chunkLo]
    resSlot2 (jobj [("stop", .jbool true), ("slot_id", .num 2)]) .null (.jbool true) 0
    (fun _ _ _ => prefixSelf _) (by decide)
    (fun j hj => absurd hj (Nat.not_lt_zero j))
    rfl rfl (by decide) rfl rfl rfl rfl rfl

/-- Claim C5: if at least one chunk was emitted and the Result then appears
with a data payload whose `stop` flag is falsy, the relay emits no further
frame after the chunks - no terminal frame of any kind - yet still deletes
both the result key and the chunk list and closes the stream at that very
tick `m` instead of polling on until timeout. -/
theorem relay_silent_on_stop_false
    (env : Nat → BrokerView) (C : List Json) (res d e s : Json) (m : Nat)
    (mono : ∀ a b : Nat, a ≤ b → (env a).stream <+: (env b).stream)
    (hm : m < relayTicks)
    (hbefore : ∀ j, j < m → (env j).result = none)
    (hstream : (env m).stream = C.map some)
    (hres : (env m).result = some (some res))
    (hN : 1 ≤ C.length)
    (he : pyGet res "error" .null = .ok e) (het : e.truthy = false)
    (hd : pyGet res "data" (jobj []) = .ok d)
    (hs : pyGet d "stop" (.jbool false) = .ok s) (hst : s.truthy = false) :
    stream_completion_response env = ⟨C, true, true, m⟩ := by
  unfold stream_completion_response
  have hrun := relay_result_run env C (some res) mono m 0 relayTicks false 0 hm
    (fun j hj => by simpa using hbefore j hj)
    (by simpa using hstream) (by simpa using hres) (by omega)
  rw [hrun]
  have hcs : (false || decide (0 < C.length)) = true := by
    simp
    omega
  rw [hcs]
  have hhandle : handleResult true (some res) = ([], true) := by
    simp only [handleResult, resultFrames_silent res d e s he het hd hs hst]
  rw [hhandle]
  simp

theorem relay_silent_on_stop_false_witness :
    stream_completion_response silentStopEnv = ⟨[chunkLo], true, true, 0⟩ :=
  relay_silent_on_stop_false silentStopEnv [chunkLo] resNoStop (jobj [])
    .null (.jbool false) 0
    (fun _ _ _ => prefixSelf _) (by decide)
    (fun j hj => absurd hj (Nat.not_lt_zero j))
    rfl rfl (by decide) rfl rfl rfl rfl rfl

/-- Claim C7 (amended): whenever the relay emits the synthetic final frame
(chunks were sent and the Result's data has truthy `stop`), that frame
carries exactly four fields - empty `content`, the data's `multimodal`
flag defaulted to false, the data's `slot_id` defaulted to 0, and
`stop = true`; other metadata of the data payload is not copied. -/
theorem synthetic_stop_frame_fields
    (env : Nat → BrokerView) (C : List Json) (res d e s : Json) (m : Nat)
    (mono : ∀ a b : Nat, a ≤ b → (env a).stream <+: (env b).stream)
    (hm : m < relayTicks)
    (hbefore : ∀ j, j < m → (env j).result = none)
    (hstream : (env m).stream = C.map some)
    (hres : (env m).result = some (some res))
    (hN : 1 ≤ C.length)
    (he : pyGet res "error" .null = .ok e) (het : e.truthy = false)
    (hd : pyGet res "data" (jobj []) = .ok d)
    (hs : pyGet d "stop" (.jbool false) = .ok s) (hst : s.truthy = true) :
    (stream_completion_response env).frames =
      C ++ [jobj [("content", .str ""),
        ("multimodal", objGetD d "multimodal" (.jbool false)),
        ("slot_id", objGetD d "slot_id" (.num 0)), ("stop", .jbool true)]] := by
  unfold stream_completion_response
  have hrun := relay_result_run env C (some res) mono m 0 relayTicks false 0 hm
    (fun j hj => by simpa using hbefore j hj)
    (by simpa using hstream) (by simpa using hres) (by omega)
  rw [hrun]
  have hcs : (false || decide (0 < C.length)) = true := by
    simp
    omega
  rw [hcs]
  have hhandle : handleResult true (some res) =
      ([jobj [("content", .str ""),
        ("multimodal", objGetD d "multimodal" (.jbool false)),
        ("slot_id", objGetD d "slot_id" (.num 0)), ("stop", .jbool true)]], true) := by
    simp only [handleResult, resultFrames_stop res d e s he het hd hs hst]
  rw [hhandle]
  simp

theorem synthetic_stop_frame_fields_witness :
    (stream_completion_response scenarioEnv).frames =
      [chunkHel, chunkLo,
       jobj [("content", .str ""), ("multimodal", .jbool false),
             ("slot_id", .num 2), ("stop", .jbool true)]] := by
  rw [synthetic_stop_frame_fields scenarioEnv [chunkHel, chunkLo] resSlot2
    (jobj [("stop", .jbool true), ("slot_id", .num 2)]) .null (.jbool true) 0
    (fun _ _ _ => prefixSelf _) (by decide)
    (fun j hj => absurd hj (Nat.not_lt_zero j))
    rfl rfl (by decide) rfl rfl rfl rfl rfl]
  decide

/-- Claim C8: for a job with zero chunks ever appended whose Result is
present with a data payload and no error, the relay emits exactly one
frame, equal to the Result's data payload, and terminates at that tick
after deleting both the result key and the chunk list key. -/
theorem relay_single_frame_no_chunks
    (env : Nat → BrokerView) (res d e : Json) (m : Nat)
    (mono : ∀ a b : Nat, a ≤ b → (env a).stream <+: (env b).stream)
    (hm : m < relayTicks)
    (hbefore : ∀ j, j < m → (env j).result = none)
    (hstream : (env m).stream = [])
    (hres : (env m).result = some (some res))
    (he : pyGet res "error" .null = .ok e) (het : e.truthy = false)
    (hd : pyGet res "data" (jobj []) = .ok d) :
    stream_completion_response env = ⟨[d], true, true, m⟩ := by
  unfold stream_completion_response
  have hrun := relay_result_run env [] (some res) mono m 0 relayTicks false 0 hm
    (fun j hj => by simpa using hbefore j hj)
    (by simpa using hstream) (by simpa using hres) (by simp)
  rw [hrun]
  have hcs : (false || decide (0 < ([] : List Json).length)) = false := by simp
  rw [hcs]
  have hhandle : handleResult false (some res) = ([d], true) := by
    simp only [handleResult, resultFrames_whole res d e he het hd]
  rw [hhandle]
  simp

theorem relay_single_frame_no_chunks_witness :
    stream_completion_response wholePayloadEnv =
      ⟨[jobj [("text", .str "42")]], true, true, 0⟩ :=
  relay_single_frame_no_chunks wholePayloadEnv waitResVal
    (jobj [("text", .str "42")]) .null 0
    (fun _ _ _ => prefixSelf _) (by decide)
    (fun j hj => absurd hj (Nat.not_lt_zero j))
    rfl rfl rfl rfl rfl

/-- Claim C6 counterexample: with a malformed chunk at index 0 of the
stream (undecodable bytes, modelled `none`) the relay does NOT treat the
malformed value as terminal: the inner `except json.JSONDecodeError` at
main.py line 260 logs and skips it, the following good chunk and the
synthetic stop frame are still emitted, no wrapped-error frame appears,
and both broker keys ARE deleted - contradicting the claim for chunk
records. -/
theorem malformed_chunk_not_terminal_cex :
    stream_completion_response badChunkEnv =
      ⟨[chunkLo,
        jobj [("content", .str ""), ("multimodal", .jbool false),
              ("slot_id", .num 0), ("stop", .jbool true)]], true, true, 0⟩ ∧
    streamErrFrame PyExn.jsonDecodeError ∉
      (stream_completion_response badChunkEnv).frames := by
  refine ⟨by decide, by decide⟩

/-- Claim C6 (amended): a malformed RESULT record is terminal with no
retry: when the result key first holds an undecodable value, the relay
emits the chunks drained so far followed by a single wrapped-error frame
and terminates without deleting either broker key.  A malformed chunk from
the stream list, by contrast, is logged and skipped. -/
theorem malformed_result_terminal_no_cleanup
    (env : Nat → BrokerView) (C : List Json) (m : Nat)
    (mono : ∀ a b : Nat, a ≤ b → (env a).stream <+: (env b).stream)
    (hm : m < relayTicks)
    (hbefore : ∀ j, j < m → (env j).result = none)
    (hstream : (env m).stream = C.map some)
    (hres : (env m).result = some none) :
    stream_completion_response env =
      ⟨C ++ [streamErrFrame .jsonDecodeError], false, false, m⟩ := by
  unfold stream_completion_response
  have hrun := relay_result_run env C none mono m 0 relayTicks false 0 hm
    (fun j hj => by simpa using hbefore j hj)
    (by simpa using hstream) (by simpa using hres) (by omega)
  rw [hrun]
  have hhandle : handleResult (false || decide (0 < C.length)) none =
      ([streamErrFrame .jsonDecodeError], false) := rfl
  rw [hhandle]
  simp

theorem malformed_result_terminal_no_cleanup_witness :
    stream_completion_response malformedResultEnv =
      ⟨[streamErrFrame .jsonDecodeError], false, false, 0⟩ := by
  have h := malformed_result_terminal_no_cleanup malformedResultEnv [] 0
    (fun _ _ _ => prefixSelf _) (by decide)
    (fun j hj => absurd hj (Nat.not_lt_zero j)) rfl rfl
  simpa using h

/-- Claim C7 counterexample: in the spec's own `abc123` scenario the
emitted synthetic final frame is
{content:"", multimodal:false, slot_id:2, stop:true}, which is not the
claimed {content:"", slot_id:2, stop:true}: the code adds a `multimodal`
field (defaulted to false, main.py line 285) that the claimed frame does
not carry, as the `objGetD` lookups show. -/
theorem synthetic_stop_frame_metadata_cex :
    (stream_completion_response scenarioEnv).frames =
      [chunkHel, chunkLo,
       jobj [("content", .str ""), ("multimodal", .jbool false),
             ("slot_id", .num 2), ("stop", .jbool true)]] ∧
    jobj [("content", .str ""), ("multimodal", .jbool false),
          ("slot_id", .num 2), ("stop", .jbool true)] ≠
      jobj [("content", .str ""), ("slot_id", .num 2), ("stop", .jbool true)] ∧
    objGetD (jobj [("content", .str ""), ("multimodal", .jbool false),
          ("slot_id", .num 2), ("stop", .jbool true)]) "multimodal" .null =
      .jbool false ∧
    objGetD (jobj [("content", .str ""), ("slot_id", .num 2), ("stop", .jbool true)])
        "multimodal" .null = .null := by
  refine ⟨by decide, by decide, by decide, by decide⟩

/-- Claim C9 counterexample: a Result carrying error string "boom" is
surfaced by the non-streaming completion endpoint as a 500 whose detail is
"500: boom" - the `except Exception` at main.py line 360 catches the inner
`HTTPException(500, detail=result["error"])` and re-raises it with
`detail=str(e)` - not the verbatim "boom"; tokenize adds a further prefix
of its own. -/
theorem worker_error_detail_not_verbatim_cex :
    completionNonStreaming workerErrorResult =
      .error ⟨500, "500: boom"⟩ ∧
    "500: boom" ≠ "boom" ∧
    tokenizeTaskResponse workerErrorResult =
      .error ⟨500, "Error processing tokenize request: 500: boom"⟩ :=
  ⟨rfl, by decide, rfl⟩

/-- Claim C9 (amended): for every non-streaming Result whose `error` field
holds a non-empty string `s`, the gateway surfaces a 500 error whose
detail embeds `s` behind a wrapper prefix rather than verbatim:
"500: " ++ s from the completion endpoint and
"Error processing tokenize request: 500: " ++ s from tokenize. -/
theorem worker_error_detail_wrapped (fs : JFields) (s : String)
    (herr : fs.lookup "error" = some (.str s)) (hne : s ≠ "") :
    completionNonStreaming (Json.obj fs) = .error ⟨500, "500: " ++ s⟩ ∧
    tokenizeTaskResponse (Json.obj fs) =
      .error ⟨500, "Error processing tokenize request: 500: " ++ s⟩ := by
  have he : pyGet (Json.obj fs) "error" .null = .ok (.str s) := by
    simp [pyGet, herr]
  have ht : (Json.str s).truthy = true := by
    simp [Json.truthy, hne]
  constructor
  · simp only [completionNonStreaming, he, ht]
    simp [pyStr]
  · simp only [tokenizeTaskResponse, he, ht]
    simp [pyStr]

theorem worker_error_detail_wrapped_witness :
    completionNonStreaming (Json.obj (JFields.ofList [("error", Json.str "boom")])) =
      .error ⟨500, "500: " ++ "boom"⟩ ∧
    tokenizeTaskResponse (Json.obj (JFields.ofList [("error", Json.str "boom")])) =
      .error ⟨500, "Error processing tokenize request: 500: " ++ "boom"⟩ :=
  worker_error_detail_wrapped (JFields.ofList [("error", Json.str "boom")]) "boom"
    (by decide) (by decide)
